import Mathlib

/-!
Shallow embedding of the offline jump-detection state machine of
`src/analysis/analyze_jumps.py` (function `detect_jumps_offline`,
lines 80-144), together with proofs of the specified properties.

Real numbers are modelled as rationals: every comparison and arithmetic
operation performed by the detection loop is exact field arithmetic
(additions, subtractions, multiplications by literals), so ℚ reproduces
the branching structure of the source faithfully.
-/

/-- The tunable parameters of one detection run: the five keyword
arguments of `detect_jumps_offline` (lines 81-85). -/
structure Config where
  takeoff_threshold : ℚ
  landing_threshold : ℚ
  min_airtime_s : ℚ
  freefall_ceiling : ℚ
  sample_rate : ℚ
  deriving DecidableEq, Repr

/-- The spec's validity invariant for a Threshold Configuration: all five
fields strictly positive. -/
def Config.Positive (cfg : Config) : Prop :=
  0 < cfg.takeoff_threshold ∧ 0 < cfg.landing_threshold ∧
    0 < cfg.min_airtime_s ∧ 0 < cfg.freefall_ceiling ∧ 0 < cfg.sample_rate

instance (cfg : Config) : Decidable cfg.Positive := by
  unfold Config.Positive; infer_instance

/-- One row of the input frame, restricted to the three columns that the
detection loop reads (lines 92-94): `Time_s`, `UserAccel_Mag`,
`RotationRate_Z`. -/
structure Sample where
  time_s : ℚ
  accel_mag : ℚ
  rotation_z : ℚ
  deriving DecidableEq, Repr

/-- One detected jump: the dict appended at lines 129-138. The source
stores `yaw_degrees = np.degrees(accumulated_yaw)`; that conversion
multiplies by the irrational constant 180/π, feeds no comparison, and no
claim reads the numeric yaw, so the embedding records the radian
accumulator itself in `yaw_rad`. -/
structure Jump where
  start_idx : ℕ
  end_idx : ℕ
  start_time : ℚ
  end_time : ℚ
  duration_s : ℚ
  yaw_rad : ℚ
  peak_accel : ℚ
  landing_impact : ℚ
  deriving DecidableEq, Repr

/-- The three values of the `state` variable (line 97). -/
inductive Phase where
  | ground
  | potential_takeoff
  | airborne
  deriving DecidableEq, Repr

/-- The loop's mutable variables (lines 96-99). -/
structure LoopState where
  state : Phase
  jump_start_idx : ℕ
  accumulated_yaw : ℚ
  jumps : List Jump
  deriving DecidableEq, Repr

/-- Initial values of the loop variables (lines 96-99). -/
def initState : LoopState := ⟨Phase.ground, 0, 0, []⟩

/-- Errors a run could raise. `invalidConfiguration` is the
construction-time error named by the spec; the source performs no
configuration check, so no execution path produces it. `emptySliceMax`
models the ValueError numpy raises for `.max()` of an empty slice
(line 128); the invariant proofs show it is unreachable as well. -/
inductive PyError where
  | invalidConfiguration
  | emptySliceMax
  deriving DecidableEq, Repr

/-- `f[lo:hi].max()` over the array viewed as a function: `none` models
the ValueError numpy raises on an empty slice. -/
def sliceMax (f : ℕ → ℚ) (lo hi : ℕ) : Option ℚ :=
  match (List.range' lo (hi - lo)).map f with
  | [] => none
  | x :: xs => some (xs.foldl max x)

/-- One iteration of the loop body (lines 101-142) at index `i`, over the
column arrays `a` = `UserAccel_Mag`, `r` = `RotationRate_Z`,
`t` = `Time_s`. The two checks inside `potential_takeoff` are two
independent `if` statements in the source (lines 112-117), and so is the
5-second timeout after the landing check (lines 125-142): the embedding
keeps that sequencing. -/
def step (cfg : Config) (a r t : ℕ → ℚ) (i : ℕ) (s : LoopState) :
    Except PyError LoopState :=
  match s.state with
  | Phase.ground =>
      if cfg.takeoff_threshold < a i then
        Except.ok { s with state := Phase.potential_takeoff,
                           jump_start_idx := i, accumulated_yaw := 0 }
      else
        Except.ok s
  | Phase.potential_takeoff =>
      let dt := if 0 < i then t i - t (i - 1) else 1 / cfg.sample_rate
      let yaw := s.accumulated_yaw + r i * dt
      let st1 := if a i < cfg.freefall_ceiling then Phase.airborne
                 else Phase.potential_takeoff
      let elapsed := t i - t s.jump_start_idx
      let st2 := if 1 / 2 < elapsed ∧ cfg.takeoff_threshold < a i then
                   Phase.ground
                 else st1
      Except.ok { s with state := st2, accumulated_yaw := yaw }
  | Phase.airborne =>
      let dt := if 0 < i then t i - t (i - 1) else 1 / cfg.sample_rate
      let yaw := s.accumulated_yaw + r i * dt
      let elapsed := t i - t s.jump_start_idx
      if cfg.landing_threshold < a i ∧ cfg.min_airtime_s * (1 / 2) < elapsed then
        if cfg.min_airtime_s ≤ elapsed then
          match sliceMax a s.jump_start_idx (i + 1) with
          | none => Except.error PyError.emptySliceMax
          | some peak =>
              Except.ok { state := Phase.ground,
                          jump_start_idx := s.jump_start_idx,
                          accumulated_yaw := yaw,
                          jumps := s.jumps ++
                            [{ start_idx := s.jump_start_idx, end_idx := i,
                               start_time := t s.jump_start_idx,
                               end_time := t i, duration_s := elapsed,
                               yaw_rad := yaw, peak_accel := peak,
                               landing_impact := a i }] }
        else
          Except.ok { s with state := Phase.ground, accumulated_yaw := yaw }
      else
        Except.ok { s with accumulated_yaw := yaw,
                           state := if 5 < elapsed then Phase.ground
                                    else Phase.airborne }

/-- Process indices `k, k+1, ..., k+m-1` in order, starting from loop
state `s`. -/
def stepRange (cfg : Config) (a r t : ℕ → ℚ) :
    ℕ → ℕ → LoopState → Except PyError LoopState
  | _, 0, s => Except.ok s
  | k, m + 1, s =>
      match step cfg a r t k s with
      | Except.error e => Except.error e
      | Except.ok s' => stepRange cfg a r t (k + 1) m s'

/-- A whole detection run over the column arrays: the `for` loop of
lines 101-143, started from the freshly initialised loop variables. -/
def run_detect (cfg : Config) (a r t : ℕ → ℚ) (n : ℕ) :
    Except PyError LoopState :=
  stepRange cfg a r t 0 n initState

/-- `UserAccel_Mag` column of a sample list, as a total function; the
loop only reads indices below the length. -/
def accelOf (ss : List Sample) : ℕ → ℚ :=
  fun i => (ss.getD i ⟨0, 0, 0⟩).accel_mag

/-- `RotationRate_Z` column of a sample list. -/
def rotOf (ss : List Sample) : ℕ → ℚ :=
  fun i => (ss.getD i ⟨0, 0, 0⟩).rotation_z

/-- `Time_s` column of a sample list. -/
def timeOf (ss : List Sample) : ℕ → ℚ :=
  fun i => (ss.getD i ⟨0, 0, 0⟩).time_s

/-- `detect_jumps_offline` (lines 80-144): run the state machine over the
sample rows and return the accumulated jump list. -/
def detect_jumps_offline (cfg : Config) (ss : List Sample) :
    Except PyError (List Jump) :=
  match run_detect cfg (accelOf ss) (rotOf ss) (timeOf ss) ss.length with
  | Except.error e => Except.error e
  | Except.ok s => Except.ok s.jumps

example :
    detect_jumps_offline ⟨3/2, 5/2, 1/5, 2/5, 50⟩
      [⟨0, 1, 0⟩, ⟨1/10, 3, 0⟩, ⟨2/10, 1/10, 0⟩, ⟨3/10, 1/10, 0⟩,
       ⟨5/10, 4, 0⟩] =
    Except.ok [⟨1, 4, 1/10, 5/10, 4/10, 0, 4, 4⟩] := by
  norm_num [detect_jumps_offline, run_detect, stepRange, step, initState,
    accelOf, rotOf, timeOf, sliceMax, List.range']

theorem le_foldl_max_init : ∀ (l : List ℚ) (a : ℚ), a ≤ l.foldl max a
  | [], _ => le_refl _
  | c :: l, a => le_trans (le_max_left a c) (le_foldl_max_init l (max a c))

theorem le_foldl_max_of_mem :
    ∀ (l : List ℚ) (a b : ℚ), b ∈ l → b ≤ l.foldl max a
  | c :: l, a, b, h => by
      rcases List.mem_cons.mp h with rfl | h'
      · exact le_trans (le_max_right a b) (le_foldl_max_init l (max a b))
      · exact le_foldl_max_of_mem l (max a c) b h'

/-- A nonempty slice has a maximum (no ValueError). -/
theorem sliceMax_isSome (f : ℕ → ℚ) {lo hi : ℕ} (h : lo < hi) :
    ∃ m, sliceMax f lo hi = some m := by
  unfold sliceMax
  obtain ⟨k, hk⟩ : ∃ k, hi - lo = k + 1 := ⟨hi - lo - 1, by omega⟩
  rw [hk, List.range'_succ, List.map_cons]
  exact ⟨_, rfl⟩

/-- The slice maximum dominates every entry of the slice. -/
theorem sliceMax_le {f : ℕ → ℚ} {lo hi : ℕ} {m : ℚ}
    (h : sliceMax f lo hi = some m) {k : ℕ} (hk1 : lo ≤ k) (hk2 : k < hi) :
    f k ≤ m := by
  unfold sliceMax at h
  have hmem : f k ∈ (List.range' lo (hi - lo)).map f := by
    refine List.mem_map.mpr ⟨k, ?_, rfl⟩
    rw [List.mem_range']
    exact ⟨k - lo, by omega, by omega⟩
  rcases hl : (List.range' lo (hi - lo)).map f with _ | ⟨x, xs⟩
  · rw [hl] at hmem
    cases hmem
  · rw [hl] at h hmem
    have hm : m = xs.foldl max x := by
      simpa using h.symm
    rw [hm]
    rcases List.mem_cons.mp hmem with he | h'
    · rw [he]
      exact le_foldl_max_init xs x
    · exact le_foldl_max_of_mem xs x _ h'

/-- The `ground` branch of the loop body (lines 102-106). -/
theorem step_ground_shape (cfg : Config) (a r t : ℕ → ℚ) (i jsi : ℕ)
    (yaw : ℚ) (js : List Jump) :
    step cfg a r t i ⟨Phase.ground, jsi, yaw, js⟩ =
      Except.ok (if cfg.takeoff_threshold < a i then
                   ⟨Phase.potential_takeoff, i, 0, js⟩
                 else ⟨Phase.ground, jsi, yaw, js⟩) := by
  by_cases h : cfg.takeoff_threshold < a i <;> simp [step, h]

/-- The `potential_takeoff` branch of the loop body (lines 108-117): both
checks are evaluated on every call, and the abandon check overrides the
freefall transition when both fire. -/
theorem step_pt_shape (cfg : Config) (a r t : ℕ → ℚ) (i jsi : ℕ)
    (yaw : ℚ) (js : List Jump) :
    step cfg a r t i ⟨Phase.potential_takeoff, jsi, yaw, js⟩ =
      Except.ok ⟨(if 1 / 2 < t i - t jsi ∧ cfg.takeoff_threshold < a i then
                    Phase.ground
                  else if a i < cfg.freefall_ceiling then Phase.airborne
                  else Phase.potential_takeoff),
                 jsi,
                 yaw + r i * (if 0 < i then t i - t (i - 1)
                              else 1 / cfg.sample_rate),
                 js⟩ := rfl

/-- The `airborne` branch when the landing gate passes and the airtime is
confirmed (lines 125-139): one event is appended and the state returns to
`ground`. -/
theorem step_air_confirm (cfg : Config) (a r t : ℕ → ℚ) (i jsi : ℕ)
    (yaw : ℚ) (js : List Jump) (peak : ℚ)
    (hc1 : cfg.landing_threshold < a i)
    (hc2 : cfg.min_airtime_s * (1 / 2) < t i - t jsi)
    (hconf : cfg.min_airtime_s ≤ t i - t jsi)
    (hpeak : sliceMax a jsi (i + 1) = some peak) :
    step cfg a r t i ⟨Phase.airborne, jsi, yaw, js⟩ =
      Except.ok ⟨Phase.ground, jsi,
        yaw + r i * (if 0 < i then t i - t (i - 1) else 1 / cfg.sample_rate),
        js ++ [⟨jsi, i, t jsi, t i, t i - t jsi,
               yaw + r i * (if 0 < i then t i - t (i - 1)
                            else 1 / cfg.sample_rate),
               peak, a i⟩]⟩ := by
  have hc : cfg.landing_threshold < a i ∧
      cfg.min_airtime_s * (1 / 2) < t i - t jsi := ⟨hc1, hc2⟩
  simp only [step]
  rw [if_pos hc, if_pos hconf, hpeak]

/-- The `airborne` branch when the landing gate passes but the airtime is
below the minimum (lines 125-139): the candidate is discarded silently. -/
theorem step_air_discard (cfg : Config) (a r t : ℕ → ℚ) (i jsi : ℕ)
    (yaw : ℚ) (js : List Jump)
    (hc1 : cfg.landing_threshold < a i)
    (hc2 : cfg.min_airtime_s * (1 / 2) < t i - t jsi)
    (hshort : ¬ cfg.min_airtime_s ≤ t i - t jsi) :
    step cfg a r t i ⟨Phase.airborne, jsi, yaw, js⟩ =
      Except.ok ⟨Phase.ground, jsi,
        yaw + r i * (if 0 < i then t i - t (i - 1) else 1 / cfg.sample_rate),
        js⟩ := by
  have hc : cfg.landing_threshold < a i ∧
      cfg.min_airtime_s * (1 / 2) < t i - t jsi := ⟨hc1, hc2⟩
  simp only [step]
  rw [if_pos hc, if_neg hshort]

/-- The `airborne` branch when the landing gate does not pass
(lines 125-142): no event, with only the 5-second timeout able to return
the machine to `ground`. -/
theorem step_air_nolanding (cfg : Config) (a r t : ℕ → ℚ) (i jsi : ℕ)
    (yaw : ℚ) (js : List Jump)
    (hnc : ¬ (cfg.landing_threshold < a i ∧
              cfg.min_airtime_s * (1 / 2) < t i - t jsi)) :
    step cfg a r t i ⟨Phase.airborne, jsi, yaw, js⟩ =
      Except.ok ⟨(if 5 < t i - t jsi then Phase.ground else Phase.airborne),
        jsi,
        yaw + r i * (if 0 < i then t i - t (i - 1) else 1 / cfg.sample_rate),
        js⟩ := by
  simp only [step]
  rw [if_neg hnc]

/-- Facts the loop guarantees about every jump it has appended, after
having processed the first `n` indices: index bounds, the relationship of
the stored times, duration and impact to the column arrays, the minimum
airtime, and that the stored peak is the maximum over the closed candidate
window. -/
def JumpOK (cfg : Config) (a t : ℕ → ℚ) (n : ℕ) (j : Jump) : Prop :=
  j.start_idx ≤ j.end_idx ∧ j.end_idx < n ∧
    j.start_time = t j.start_idx ∧ j.end_time = t j.end_idx ∧
    j.duration_s = t j.end_idx - t j.start_idx ∧
    cfg.min_airtime_s ≤ j.duration_s ∧
    j.landing_impact = a j.end_idx ∧
    sliceMax a j.start_idx (j.end_idx + 1) = some j.peak_accel

/-- Master loop invariant after processing the first `n` indices: every
emitted jump is well formed, jumps are emitted in strictly separated index
order, and while a candidate is open its start index is a previously
processed index past every emitted jump. -/
def StateOK (cfg : Config) (a t : ℕ → ℚ) (n : ℕ) (s : LoopState) : Prop :=
  (∀ j ∈ s.jumps, JumpOK cfg a t n j) ∧
    s.jumps.Pairwise (fun j₁ j₂ => j₁.end_idx < j₂.start_idx) ∧
    (s.state ≠ Phase.ground →
      s.jump_start_idx < n ∧ ∀ j ∈ s.jumps, j.end_idx < s.jump_start_idx)

theorem JumpOK.mono {cfg : Config} {a t : ℕ → ℚ} {n n' : ℕ} {j : Jump}
    (h : JumpOK cfg a t n j) (hn : n ≤ n') : JumpOK cfg a t n' j :=
  ⟨h.1, Nat.lt_of_lt_of_le h.2.1 hn, h.2.2⟩

/-- One loop iteration never raises and preserves the master invariant. -/
theorem step_StateOK (cfg : Config) (a r t : ℕ → ℚ) (n : ℕ)
    (s : LoopState) (h : StateOK cfg a t n s) :
    ∃ s', step cfg a r t n s = Except.ok s' ∧
      StateOK cfg a t (n + 1) s' := by
  obtain ⟨hJ, hP, hG⟩ := h
  obtain ⟨st, jsi, yaw, js⟩ := s
  cases st with
  | ground =>
      rw [step_ground_shape]
      by_cases hta : cfg.takeoff_threshold < a n
      · rw [if_pos hta]
        refine ⟨_, rfl, fun j hj => (hJ j hj).mono (Nat.le_succ n), hP, ?_⟩
        intro _
        exact ⟨Nat.lt_succ_self n, fun j hj => (hJ j hj).2.1⟩
      · rw [if_neg hta]
        refine ⟨_, rfl, fun j hj => (hJ j hj).mono (Nat.le_succ n), hP, ?_⟩
        intro hne
        exact absurd rfl hne
  | potential_takeoff =>
      rw [step_pt_shape]
      obtain ⟨hlt, hend⟩ := hG (by simp)
      refine ⟨_, rfl, fun j hj => (hJ j hj).mono (Nat.le_succ n), hP, ?_⟩
      intro _
      exact ⟨Nat.lt_succ_of_lt hlt, hend⟩
  | airborne =>
      obtain ⟨hlt, hend⟩ := hG (by simp)
      by_cases hc : cfg.landing_threshold < a n ∧
          cfg.min_airtime_s * (1 / 2) < t n - t jsi
      · by_cases hconf : cfg.min_airtime_s ≤ t n - t jsi
        · obtain ⟨peak, hpeak⟩ :=
            sliceMax_isSome a (Nat.lt_succ_of_lt hlt)
          rw [step_air_confirm cfg a r t n jsi yaw js peak hc.1 hc.2 hconf
            hpeak]
          refine ⟨_, rfl, ?_, ?_, ?_⟩
          · intro j hj
            rcases List.mem_append.mp hj with hj | hj
            · exact (hJ j hj).mono (Nat.le_succ n)
            · rcases List.mem_singleton.mp hj with rfl
              exact ⟨Nat.le_of_lt hlt, Nat.lt_succ_self n, rfl, rfl, rfl,
                hconf, rfl, hpeak⟩
          · rw [List.pairwise_append]
            refine ⟨hP, List.pairwise_singleton _ _, ?_⟩
            intro j₁ hj₁ j₂ hj₂
            rcases List.mem_singleton.mp hj₂ with rfl
            exact hend j₁ hj₁
          · intro hne
            exact absurd rfl hne
        · rw [step_air_discard cfg a r t n jsi yaw js hc.1 hc.2 hconf]
          refine ⟨_, rfl, fun j hj => (hJ j hj).mono (Nat.le_succ n), hP, ?_⟩
          intro hne
          exact absurd rfl hne
      · rw [step_air_nolanding cfg a r t n jsi yaw js hc]
        refine ⟨_, rfl, fun j hj => (hJ j hj).mono (Nat.le_succ n), hP, ?_⟩
        intro _
        exact ⟨Nat.lt_succ_of_lt hlt, hend⟩

/-- Running any span of indices from an invariant-respecting state never
raises and preserves the invariant. -/
theorem stepRange_StateOK (cfg : Config) (a r t : ℕ → ℚ) :
    ∀ (m k : ℕ) (s : LoopState), StateOK cfg a t k s →
      ∃ s', stepRange cfg a r t k m s = Except.ok s' ∧
        StateOK cfg a t (k + m) s'
  | 0, k, s, h => ⟨s, rfl, h⟩
  | m + 1, k, s, h => by
      obtain ⟨s1, h1, hok1⟩ := step_StateOK cfg a r t k s h
      obtain ⟨s', h2, hok2⟩ := stepRange_StateOK cfg a r t m (k + 1) s1 hok1
      refine ⟨s', ?_, ?_⟩
      · rw [stepRange, h1]
        exact h2
      · have he : k + (m + 1) = k + 1 + m := by omega
        rw [he]
        exact hok2

/-- A full run never raises and its final state satisfies the invariant. -/
theorem run_detect_StateOK (cfg : Config) (a r t : ℕ → ℚ) (n : ℕ) :
    ∃ s, run_detect cfg a r t n = Except.ok s ∧ StateOK cfg a t n s := by
  have h0 : StateOK cfg a t 0 initState := by
    refine ⟨?_, ?_, ?_⟩
    · intro j hj
      cases hj
    · exact List.Pairwise.nil
    · intro hne
      exact absurd rfl hne
  obtain ⟨s, h1, h2⟩ := stepRange_StateOK cfg a r t n 0 initState h0
  refine ⟨s, h1, ?_⟩
  simpa using h2

/-- `detect_jumps_offline` always returns normally, with a final loop
state satisfying the master invariant at the full length. -/
theorem detect_jumps_offline_spec (cfg : Config) (ss : List Sample) :
    ∃ s, detect_jumps_offline cfg ss = Except.ok s.jumps ∧
      StateOK cfg (accelOf ss) (timeOf ss) ss.length s := by
  obtain ⟨s, h1, h2⟩ :=
    run_detect_StateOK cfg (accelOf ss) (rotOf ss) (timeOf ss) ss.length
  refine ⟨s, ?_, h2⟩
  unfold detect_jumps_offline
  rw [h1]

/-- While on the ground, a span of samples that never exceeds the takeoff
threshold leaves the loop state untouched. -/
theorem stepRange_ground_quiet (cfg : Config) (a r t : ℕ → ℚ) :
    ∀ (m k jsi : ℕ) (yaw : ℚ) (js : List Jump),
      (∀ i, k ≤ i → i < k + m → a i ≤ cfg.takeoff_threshold) →
      stepRange cfg a r t k m ⟨Phase.ground, jsi, yaw, js⟩ =
        Except.ok ⟨Phase.ground, jsi, yaw, js⟩
  | 0, _, _, _, _, _ => rfl
  | m + 1, k, jsi, yaw, js, h => by
      rw [stepRange, step_ground_shape,
        if_neg (not_lt.mpr (h k le_rfl (by omega)))]
      exact stepRange_ground_quiet cfg a r t m (k + 1) jsi yaw js
        (fun i h1 h2 => h i (by omega) (by omega))

/-- While a candidate is pending, a span of samples whose magnitude stays
inside the closed band `[freefall_ceiling, takeoff_threshold]` keeps the
machine in `potential_takeoff` (only the yaw accumulator moves): the
pending state has no elapsed-time-only exit. -/
theorem stepRange_pt_inband (cfg : Config) (a r t : ℕ → ℚ) :
    ∀ (m k jsi : ℕ) (yaw : ℚ) (js : List Jump),
      (∀ i, k ≤ i → i < k + m →
        cfg.freefall_ceiling ≤ a i ∧ a i ≤ cfg.takeoff_threshold) →
      ∃ yaw', stepRange cfg a r t k m
          ⟨Phase.potential_takeoff, jsi, yaw, js⟩ =
        Except.ok ⟨Phase.potential_takeoff, jsi, yaw', js⟩
  | 0, _, _, yaw, _, _ => ⟨yaw, rfl⟩
  | m + 1, k, jsi, yaw, js, h => by
      have h1 := (h k le_rfl (by omega)).1
      have h2 := (h k le_rfl (by omega)).2
      rw [stepRange, step_pt_shape,
        if_neg (fun hc => absurd hc.2 (not_lt.mpr h2)),
        if_neg (not_lt.mpr h1)]
      obtain ⟨yaw', hy⟩ := stepRange_pt_inband cfg a r t m (k + 1) jsi
        (yaw + r k * (if 0 < k then t k - t (k - 1) else 1 / cfg.sample_rate))
        js (fun i ha hb => h i (by omega) (by omega))
      exact ⟨yaw', hy⟩

/-- Two slices over arrays that agree on the slice's index range have the
same maximum. -/
theorem sliceMax_congr {f g : ℕ → ℚ} {lo hi : ℕ}
    (h : ∀ x, lo ≤ x → x < hi → f x = g x) :
    sliceMax f lo hi = sliceMax g lo hi := by
  unfold sliceMax
  have he : (List.range' lo (hi - lo)).map f =
      (List.range' lo (hi - lo)).map g := by
    refine List.map_congr_left ?_
    intro x hx
    rw [List.mem_range'] at hx
    obtain ⟨i, hi', rfl⟩ := hx
    exact h _ (by omega) (by omega)
  rw [he]

/-- One iteration reads only the current index, its predecessor, the
candidate start index and the candidate window, so arrays that agree
below `n` produce the same iteration result. -/
theorem step_congr {cfg : Config} {a₁ r₁ t₁ a₂ r₂ t₂ : ℕ → ℚ} {n k : ℕ}
    (hk : k < n)
    (ha : ∀ i, i < n → a₁ i = a₂ i) (hr : ∀ i, i < n → r₁ i = r₂ i)
    (ht : ∀ i, i < n → t₁ i = t₂ i)
    (s : LoopState) (hjsi : s.state ≠ Phase.ground → s.jump_start_idx < k) :
    step cfg a₁ r₁ t₁ k s = step cfg a₂ r₂ t₂ k s := by
  obtain ⟨st, jsi, yaw, js⟩ := s
  cases st with
  | ground =>
      rw [step_ground_shape, step_ground_shape, ha k hk]
  | potential_takeoff =>
      have hj : jsi < k := hjsi (by simp)
      rw [step_pt_shape, step_pt_shape, ha k hk, hr k hk, ht k hk,
        ht (k - 1) (by omega), ht jsi (by omega)]
  | airborne =>
      have hj : jsi < k := hjsi (by simp)
      have hs : sliceMax a₁ jsi (k + 1) = sliceMax a₂ jsi (k + 1) :=
        sliceMax_congr (fun x hx1 hx2 => ha x (by omega))
      simp only [step]
      rw [ha k hk, hr k hk, ht k hk, ht (k - 1) (by omega),
        ht jsi (by omega), hs]

/-- Lockstep run of two agreeing input arrays from an
invariant-respecting state. -/
theorem stepRange_congr (cfg : Config) (a₁ r₁ t₁ a₂ r₂ t₂ : ℕ → ℚ)
    (n : ℕ) (ha : ∀ i, i < n → a₁ i = a₂ i)
    (hr : ∀ i, i < n → r₁ i = r₂ i) (ht : ∀ i, i < n → t₁ i = t₂ i) :
    ∀ (m k : ℕ) (s : LoopState), k + m ≤ n →
      StateOK cfg a₁ t₁ k s →
      stepRange cfg a₁ r₁ t₁ k m s = stepRange cfg a₂ r₂ t₂ k m s
  | 0, _, _, _, _ => rfl
  | m + 1, k, s, hmn, hok => by
      have hcong : step cfg a₁ r₁ t₁ k s = step cfg a₂ r₂ t₂ k s :=
        step_congr (by omega) ha hr ht s (fun hne => (hok.2.2 hne).1)
      obtain ⟨s1, h1, hok1⟩ := step_StateOK cfg a₁ r₁ t₁ k s hok
      rw [stepRange, stepRange, h1, ← hcong, h1]
      exact stepRange_congr cfg a₁ r₁ t₁ a₂ r₂ t₂ n ha hr ht m (k + 1) s1
        (by omega) hok1

/-- The freshly initialised loop state satisfies the invariant. -/
theorem initState_StateOK (cfg : Config) (a t : ℕ → ℚ) :
    StateOK cfg a t 0 initState := by
  refine ⟨?_, ?_, ?_⟩
  · intro j hj
    cases hj
  · exact List.Pairwise.nil
  · intro hne
    exact absurd rfl hne

/-- The default keyword arguments of `detect_jumps_offline`
(lines 81-85). -/
def cfgDefault : Config := ⟨3/2, 5/2, 1/5, 2/5, 50⟩

/-- A concrete session with two clean jumps (takeoff spike, freefall,
landing spike, twice). -/
def ssTwoJumps : List Sample :=
  [⟨0, 1, 0⟩, ⟨1/10, 3, 0⟩, ⟨1/5, 1/10, 0⟩, ⟨3/10, 1/10, 0⟩,
   ⟨1/2, 4, 0⟩, ⟨3/5, 3, 0⟩, ⟨7/10, 1/10, 0⟩, ⟨1, 4, 0⟩]

/-- First event detected on `ssTwoJumps`. -/
def jumpA : Jump := ⟨1, 4, 1/10, 1/2, 2/5, 0, 4, 4⟩

/-- Second event detected on `ssTwoJumps`. -/
def jumpB : Jump := ⟨5, 7, 3/5, 1, 2/5, 0, 4, 4⟩

/-- Concrete evaluation of the detector on the two-jump session. -/
theorem detect_ssTwoJumps :
    detect_jumps_offline cfgDefault ssTwoJumps =
      Except.ok [jumpA, jumpB] := by
  norm_num [detect_jumps_offline, run_detect, stepRange, step, initState,
    accelOf, rotOf, timeOf, sliceMax, List.range', cfgDefault, ssTwoJumps,
    jumpA, jumpB]

/-- C1, counterexample to the claim as stated: with a non-positive
`takeoff_threshold`, construction does not fail with
`invalidConfiguration` — the run processes its sample normally (the final
state shows the sample moved the machine to `potential_takeoff`). -/
theorem claim1_counterexample :
    (⟨-1, 5/2, 1/5, 2/5, 50⟩ : Config).takeoff_threshold ≤ 0 ∧
    detect_jumps_offline ⟨-1, 5/2, 1/5, 2/5, 50⟩ [⟨0, 1/2, 0⟩] ≠
      Except.error PyError.invalidConfiguration ∧
    run_detect ⟨-1, 5/2, 1/5, 2/5, 50⟩ (fun _ => 1/2) (fun _ => 0)
        (fun _ => 0) 1 =
      Except.ok ⟨Phase.potential_takeoff, 0, 0, []⟩ := by
  refine ⟨by norm_num, ?_, ?_⟩
  · have h : detect_jumps_offline ⟨-1, 5/2, 1/5, 2/5, 50⟩ [⟨0, 1/2, 0⟩] =
        Except.ok [] := by
      norm_num [detect_jumps_offline, run_detect, stepRange, step,
        initState, accelOf, rotOf, timeOf]
    rw [h]
    simp
  · norm_num [run_detect, stepRange, step, initState]

/-- C1 (amended): the source performs no configuration validation and no
per-sample error handling is ever needed: for every configuration
(positive or not) and every sample sequence, detection returns a normal
event list and never raises. -/
theorem claim1_no_error (cfg : Config) (ss : List Sample) :
    ∃ js, detect_jumps_offline cfg ss = Except.ok js := by
  obtain ⟨s, h1, _⟩ := detect_jumps_offline_spec cfg ss
  exact ⟨s.jumps, h1⟩

/-- C2, counterexample to the claim as stated: with all-positive
thresholds where `takeoff_threshold < freefall_ceiling`, a
`potential_takeoff` sample below the freefall ceiling does NOT leave the
machine `airborne`: the sustained-acceleration abandon check is a second
independent `if`, not an `else` branch, and it overrides the freefall
transition on the same call, ending in `ground`. -/
theorem claim2_counterexample :
    Config.Positive ⟨3/10, 1, 1/5, 1/2, 50⟩ ∧
    (2/5 : ℚ) < (⟨3/10, 1, 1/5, 1/2, 50⟩ : Config).freefall_ceiling ∧
    step ⟨3/10, 1, 1/5, 1/2, 50⟩ (fun _ => 2/5) (fun _ => 0)
        (fun i => if i = 0 then 0 else 3/5) 1
        ⟨Phase.potential_takeoff, 0, 0, []⟩ =
      Except.ok ⟨Phase.ground, 0, 0, []⟩ ∧
    Phase.ground ≠ Phase.airborne := by
  refine ⟨by norm_num [Config.Positive], by norm_num, ?_, by simp⟩
  norm_num [step]

/-- C2 (amended): in `potential_takeoff`, a sample below the freefall
ceiling moves the machine to `Airborne` unless the independent abandon
check (`elapsed > 0.5` and acceleration above the takeoff threshold) also
fires on the same call, in which case that second check wins and the
machine returns to `Ground`; no event is appended either way. -/
theorem claim2_freefall_vs_abandon (cfg : Config) (a r t : ℕ → ℚ)
    (i : ℕ) (s : LoopState) (hpos : cfg.Positive)
    (hst : s.state = Phase.potential_takeoff)
    (hff : a i < cfg.freefall_ceiling) :
    ∃ s', step cfg a r t i s = Except.ok s' ∧ s'.jumps = s.jumps ∧
      s'.state = (if 1 / 2 < t i - t s.jump_start_idx ∧
                    cfg.takeoff_threshold < a i then Phase.ground
                  else Phase.airborne) := by
  obtain ⟨st, jsi, yaw, js⟩ := s
  cases st with
  | ground => simp at hst
  | airborne => simp at hst
  | potential_takeoff =>
      rw [step_pt_shape]
      refine ⟨_, rfl, rfl, ?_⟩
      dsimp only
      by_cases hc : 1 / 2 < t i - t jsi ∧ cfg.takeoff_threshold < a i
      · rw [if_pos hc, if_pos hc]
      · rw [if_neg hc, if_neg hc, if_pos hff]

/-- Witness for C2 (amended) at a concrete input: freefall with the
abandon check not firing lands in `Airborne`. -/
theorem claim2_witness :
    ∃ s', step cfgDefault (fun _ => 1/10) (fun _ => 0)
        (fun i => if i = 0 then 0 else 1/10) 1
        ⟨Phase.potential_takeoff, 0, 0, []⟩ =
      Except.ok s' ∧ s'.jumps = [] ∧ s'.state = Phase.airborne := by
  obtain ⟨s', h1, h2, h3⟩ := claim2_freefall_vs_abandon cfgDefault
    (fun _ => 1/10) (fun _ => 0) (fun i => if i = 0 then 0 else 1/10) 1
    ⟨Phase.potential_takeoff, 0, 0, []⟩
    (by norm_num [cfgDefault, Config.Positive]) rfl
    (by norm_num [cfgDefault])
  refine ⟨s', h1, h2, ?_⟩
  rw [h3, if_neg]
  norm_num [cfgDefault]

/-- C3: every emitted event's duration is at least `min_airtime_s`; at
the step level, a landing sample whose elapsed time equals
`min_airtime_s` exactly is confirmed and emitted (the comparison is
inclusive), while an elapsed time in the gate but strictly below the
minimum is discarded without emission. -/
theorem claim3_min_airtime :
    (∀ (cfg : Config) (ss : List Sample) (js : List Jump),
        detect_jumps_offline cfg ss = Except.ok js →
        ∀ j ∈ js, cfg.min_airtime_s ≤ j.duration_s) ∧
    (∀ (cfg : Config) (a r t : ℕ → ℚ) (i : ℕ) (s : LoopState),
        s.state = Phase.airborne →
        cfg.landing_threshold < a i →
        t i - t s.jump_start_idx = cfg.min_airtime_s →
        0 < cfg.min_airtime_s →
        s.jump_start_idx ≤ i →
        ∃ s' j, step cfg a r t i s = Except.ok s' ∧
          s'.jumps = s.jumps ++ [j] ∧
          j.duration_s = cfg.min_airtime_s ∧ s'.state = Phase.ground) ∧
    (∀ (cfg : Config) (a r t : ℕ → ℚ) (i : ℕ) (s : LoopState),
        s.state = Phase.airborne →
        cfg.landing_threshold < a i →
        cfg.min_airtime_s * (1 / 2) < t i - t s.jump_start_idx →
        t i - t s.jump_start_idx < cfg.min_airtime_s →
        ∃ s', step cfg a r t i s = Except.ok s' ∧
          s'.jumps = s.jumps ∧ s'.state = Phase.ground) := by
  refine ⟨?_, ?_, ?_⟩
  · intro cfg ss js h j hj
    obtain ⟨s, hds, hok⟩ := detect_jumps_offline_spec cfg ss
    rw [h] at hds
    have hjs : js = s.jumps := by
      injection hds
    rw [hjs] at hj
    exact (hok.1 j hj).2.2.2.2.2.1
  · intro cfg a r t i s hst himp helapsed hmin hle
    obtain ⟨st, jsi, yaw, js⟩ := s
    cases st with
    | ground => simp at hst
    | potential_takeoff => simp at hst
    | airborne =>
        dsimp only at helapsed hle ⊢
        have hc2 : cfg.min_airtime_s * (1 / 2) < t i - t jsi := by
          rw [helapsed]
          linarith
        have hconf : cfg.min_airtime_s ≤ t i - t jsi := le_of_eq helapsed.symm
        obtain ⟨peak, hpeak⟩ := sliceMax_isSome a (Nat.lt_succ_of_le hle)
        rw [step_air_confirm cfg a r t i jsi yaw js peak himp hc2 hconf
          hpeak]
        exact ⟨_, _, rfl, rfl, helapsed, rfl⟩
  · intro cfg a r t i s hst himp hgate hshort
    obtain ⟨st, jsi, yaw, js⟩ := s
    cases st with
    | ground => simp at hst
    | potential_takeoff => simp at hst
    | airborne =>
        dsimp only at hgate hshort ⊢
        rw [step_air_discard cfg a r t i jsi yaw js himp hgate
          (not_le.mpr hshort)]
        exact ⟨_, rfl, rfl, rfl⟩

/-- Witness for C3 at concrete inputs: an emitted event of the two-jump
session meets the minimum; a landing at elapsed exactly `min_airtime_s`
emits; a landing inside the gate but under the minimum is discarded. -/
theorem claim3_witness :
    ((1 : ℚ)/5 ≤ jumpA.duration_s) ∧
    (∃ s' j, step cfgDefault (fun _ => 4) (fun _ => 0)
        (fun i => if i = 0 then 0 else 1/5) 1
        ⟨Phase.airborne, 0, 0, []⟩ =
      Except.ok s' ∧ s'.jumps = [] ++ [j] ∧
      j.duration_s = cfgDefault.min_airtime_s ∧
      s'.state = Phase.ground) ∧
    (∃ s', step cfgDefault (fun _ => 4) (fun _ => 0)
        (fun i => if i = 0 then 0 else 3/20) 1
        ⟨Phase.airborne, 0, 0, []⟩ =
      Except.ok s' ∧ s'.jumps = [] ∧ s'.state = Phase.ground) := by
  refine ⟨?_, ?_, ?_⟩
  · have h := claim3_min_airtime.1 cfgDefault ssTwoJumps [jumpA, jumpB]
      detect_ssTwoJumps jumpA (by simp)
    simpa [cfgDefault] using h
  · exact claim3_min_airtime.2.1 cfgDefault (fun _ => 4) (fun _ => 0)
      (fun i => if i = 0 then 0 else 1/5) 1 ⟨Phase.airborne, 0, 0, []⟩
      rfl (by norm_num [cfgDefault]) (by norm_num [cfgDefault])
      (by norm_num [cfgDefault]) (by norm_num)
  · exact claim3_min_airtime.2.2 cfgDefault (fun _ => 4) (fun _ => 0)
      (fun i => if i = 0 then 0 else 3/20) 1 ⟨Phase.airborne, 0, 0, []⟩
      rfl (by norm_num [cfgDefault]) (by norm_num [cfgDefault])
      (by norm_num [cfgDefault])

/-- C4: while airborne, an impact above the landing threshold at elapsed
time exactly half of `min_airtime_s` does not trigger the impact branch:
no event is emitted, and the machine leaves `Airborne` only if the
independent 5-second timeout (`elapsed > 5.0`) happens to fire. -/
theorem claim4_half_gate (cfg : Config) (a r t : ℕ → ℚ) (i : ℕ)
    (s : LoopState) (hst : s.state = Phase.airborne)
    (himp : cfg.landing_threshold < a i)
    (hhalf : t i - t s.jump_start_idx = cfg.min_airtime_s * (1 / 2)) :
    ∃ s', step cfg a r t i s = Except.ok s' ∧ s'.jumps = s.jumps ∧
      (s'.state = Phase.airborne ∨
        (s'.state = Phase.ground ∧ 5 < cfg.min_airtime_s * (1 / 2))) := by
  obtain ⟨st, jsi, yaw, js⟩ := s
  cases st with
  | ground => simp at hst
  | potential_takeoff => simp at hst
  | airborne =>
      dsimp only at hhalf ⊢
      have hnc : ¬ (cfg.landing_threshold < a i ∧
          cfg.min_airtime_s * (1 / 2) < t i - t jsi) := by
        intro hc
        rw [hhalf] at hc
        exact absurd hc.2 (lt_irrefl _)
      rw [step_air_nolanding cfg a r t i jsi yaw js hnc]
      refine ⟨_, rfl, rfl, ?_⟩
      by_cases h5 : 5 < t i - t jsi
      · rw [hhalf] at h5
        right
        rw [if_pos (hhalf ▸ h5 : 5 < t i - t jsi)]
        exact ⟨rfl, h5⟩
      · left
        rw [if_neg h5]

/-- Witness for C4 at a concrete input: impact of 4 G at elapsed exactly
0.1 s with a 0.2 s minimum airtime emits nothing and stays airborne. -/
theorem claim4_witness :
    ∃ s', step cfgDefault (fun _ => 4) (fun _ => 0)
        (fun i => if i = 0 then 0 else 1/10) 1
        ⟨Phase.airborne, 0, 0, []⟩ =
      Except.ok s' ∧ s'.jumps = [] ∧
      (s'.state = Phase.airborne ∨
        (s'.state = Phase.ground ∧
          5 < cfgDefault.min_airtime_s * (1 / 2))) :=
  claim4_half_gate cfgDefault (fun _ => 4) (fun _ => 0)
    (fun i => if i = 0 then 0 else 1/10) 1 ⟨Phase.airborne, 0, 0, []⟩
    rfl (by norm_num [cfgDefault]) (by norm_num [cfgDefault])

/-- C5: every emitted event stores as `peak_accel` the maximum of the
acceleration magnitude over the closed index window
`[start_idx, end_idx]`, which therefore dominates both endpoints, and
stores the landing sample's magnitude as `landing_impact`. -/
theorem claim5_peak_impact (cfg : Config) (ss : List Sample)
    (js : List Jump) (h : detect_jumps_offline cfg ss = Except.ok js) :
    ∀ j ∈ js,
      sliceMax (accelOf ss) j.start_idx (j.end_idx + 1) =
        some j.peak_accel ∧
      accelOf ss j.start_idx ≤ j.peak_accel ∧
      accelOf ss j.end_idx ≤ j.peak_accel ∧
      j.landing_impact = accelOf ss j.end_idx := by
  obtain ⟨s, hds, hok⟩ := detect_jumps_offline_spec cfg ss
  rw [h] at hds
  have hjs : js = s.jumps := by
    injection hds
  intro j hj
  rw [hjs] at hj
  have hJ := hok.1 j hj
  have hse := hJ.1
  refine ⟨hJ.2.2.2.2.2.2.2, ?_, ?_, hJ.2.2.2.2.2.2.1⟩
  · exact sliceMax_le hJ.2.2.2.2.2.2.2 le_rfl (by omega)
  · exact sliceMax_le hJ.2.2.2.2.2.2.2 hse (by omega)

/-- Witness for C5 at a concrete event of the two-jump session. -/
theorem claim5_witness :
    sliceMax (accelOf ssTwoJumps) jumpA.start_idx (jumpA.end_idx + 1) =
      some jumpA.peak_accel ∧
    accelOf ssTwoJumps jumpA.start_idx ≤ jumpA.peak_accel ∧
    accelOf ssTwoJumps jumpA.end_idx ≤ jumpA.peak_accel ∧
    jumpA.landing_impact = accelOf ssTwoJumps jumpA.end_idx :=
  claim5_peak_impact cfgDefault ssTwoJumps [jumpA, jumpB]
    detect_ssTwoJumps jumpA (by simp)

/-- C6: with positive thresholds, a sample sequence (empty included) in
which no magnitude exceeds the takeoff threshold yields the empty event
sequence with no error. -/
theorem claim6_quiet (cfg : Config) (ss : List Sample)
    (hpos : cfg.Positive)
    (h : ∀ smp ∈ ss, smp.accel_mag ≤ cfg.takeoff_threshold) :
    detect_jumps_offline cfg ss = Except.ok [] := by
  have hall : ∀ i, 0 ≤ i → i < 0 + ss.length →
      accelOf ss i ≤ cfg.takeoff_threshold := by
    intro i _ hi
    rw [Nat.zero_add] at hi
    unfold accelOf
    rw [List.getD_eq_getElem ss ⟨0, 0, 0⟩ hi]
    exact h _ (List.getElem_mem hi)
  unfold detect_jumps_offline run_detect initState
  rw [stepRange_ground_quiet cfg (accelOf ss) (rotOf ss) (timeOf ss)
    ss.length 0 0 0 [] hall]

/-- Witness for C6 at a concrete quiet two-sample session. -/
theorem claim6_witness :
    detect_jumps_offline cfgDefault [⟨0, 1, 0⟩, ⟨1/10, 1, 0⟩] =
      Except.ok [] :=
  claim6_quiet cfgDefault [⟨0, 1, 0⟩, ⟨1/10, 1, 0⟩]
    (by norm_num [cfgDefault, Config.Positive])
    (by
      intro smp hsmp
      rcases List.mem_cons.mp hsmp with rfl | hsmp
      · norm_num [cfgDefault]
      · rcases List.mem_cons.mp hsmp with rfl | hsmp
        · norm_num [cfgDefault]
        · cases hsmp)

/-- C7: emitted events are strictly ordered by start index (hence
without duplicates, one per confirmed candidate), and under monotone
timestamps also non-decreasing in start time. -/
theorem claim7_order (cfg : Config) (ss : List Sample) (js : List Jump)
    (h : detect_jumps_offline cfg ss = Except.ok js) :
    js.Pairwise (fun j₁ j₂ => j₁.start_idx < j₂.start_idx) ∧
    ((∀ i₁ i₂, i₁ ≤ i₂ → i₂ < ss.length →
        timeOf ss i₁ ≤ timeOf ss i₂) →
      js.Pairwise (fun j₁ j₂ => j₁.start_time ≤ j₂.start_time)) := by
  obtain ⟨s, hds, hok⟩ := detect_jumps_offline_spec cfg ss
  rw [h] at hds
  have hjs : js = s.jumps := by
    injection hds
  subst hjs
  constructor
  · refine List.Pairwise.imp_of_mem ?_ hok.2.1
    intro j₁ j₂ h₁ h₂ hlt
    have hb := (hok.1 j₁ h₁).1
    omega
  · intro hmono
    refine List.Pairwise.imp_of_mem ?_ hok.2.1
    intro j₁ j₂ h₁ h₂ hlt
    have e₁ := (hok.1 j₁ h₁).2.2.1
    have e₂ := (hok.1 j₂ h₂).2.2.1
    rw [e₁, e₂]
    have hb1 := (hok.1 j₁ h₁).1
    have hb2 := (hok.1 j₂ h₂).1
    have hb3 := (hok.1 j₂ h₂).2.1
    exact hmono _ _ (by omega) (by omega)

/-- Witness for C7 on the two-jump session. -/
theorem claim7_witness :
    [jumpA, jumpB].Pairwise (fun j₁ j₂ => j₁.start_idx < j₂.start_idx) ∧
    [jumpA, jumpB].Pairwise
      (fun j₁ j₂ => j₁.start_time ≤ j₂.start_time) := by
  have hc := claim7_order cfgDefault ssTwoJumps [jumpA, jumpB]
    detect_ssTwoJumps
  refine ⟨hc.1, hc.2 ?_⟩
  intro i₁ i₂ h1 h2
  have h2' : i₂ < 8 := by
    simpa [ssTwoJumps] using h2
  interval_cases i₂ <;> interval_cases i₁ <;>
    norm_num [timeOf, ssTwoJumps]

/-- C8: detection is a pure function of the in-range sample values and
the configuration: two fresh runs over arrays that agree on the processed
index range return identical results (state is neither shared nor carried
across runs — every run starts from `initState`). -/
theorem claim8_pure (cfg : Config) (a₁ r₁ t₁ a₂ r₂ t₂ : ℕ → ℚ) (n : ℕ)
    (ha : ∀ i, i < n → a₁ i = a₂ i) (hr : ∀ i, i < n → r₁ i = r₂ i)
    (ht : ∀ i, i < n → t₁ i = t₂ i) :
    run_detect cfg a₁ r₁ t₁ n = run_detect cfg a₂ r₂ t₂ n := by
  unfold run_detect
  exact stepRange_congr cfg a₁ r₁ t₁ a₂ r₂ t₂ n ha hr ht n 0 initState
    (by omega) (initState_StateOK cfg a₁ t₁)

/-- Witness for C8: two concrete runs whose arrays agree on the two
processed indices but differ beyond them produce the same result. -/
theorem claim8_witness :
    run_detect cfgDefault (fun i => if i < 2 then 1 else 99)
        (fun _ => 0) (fun i => if i = 0 then 0 else 1/10) 2 =
      run_detect cfgDefault (fun _ => 1) (fun _ => 0)
        (fun i => if i = 0 then 0 else if i = 1 then 1/10 else 7) 2 :=
  claim8_pure cfgDefault _ _ _ _ _ _ 2
    (by intro i hi; interval_cases i <;> norm_num)
    (by intro i hi; norm_num)
    (by intro i hi; interval_cases i <;> norm_num)

/-- C9, counterexample to the claim as stated: on the transition that
abandons a `potential_takeoff` candidate back to `Ground`, the transient
state is NOT reset — the yaw accumulator keeps its accumulated value
(3/5) on that same transition. -/
theorem claim9_counterexample :
    step cfgDefault (fun _ => 2) (fun _ => 1)
        (fun i => if i = 0 then 0 else 3/5) 1
        ⟨Phase.potential_takeoff, 0, 0, []⟩ =
      Except.ok ⟨Phase.ground, 0, 3/5, []⟩ ∧
    ((3 : ℚ)/5 ≠ 0) := by
  constructor
  · norm_num [step, cfgDefault]
  · norm_num

/-- C9 (amended): the transient candidate state is reset on the
`Ground → PotentialTakeoff` entry transition (start index to the current
sample, yaw accumulator to zero), not on the transitions back to
`Ground`; returns to `Ground` leave the stale values in place, where the
`ground` branch never reads them. -/
theorem claim9_reset_on_entry (cfg : Config) (a r t : ℕ → ℚ) (i : ℕ)
    (s : LoopState) (hst : s.state = Phase.ground)
    (hta : cfg.takeoff_threshold < a i) :
    step cfg a r t i s =
      Except.ok ⟨Phase.potential_takeoff, i, 0, s.jumps⟩ := by
  obtain ⟨st, jsi, yaw, js⟩ := s
  cases st with
  | potential_takeoff => simp at hst
  | airborne => simp at hst
  | ground => rw [step_ground_shape, if_pos hta]

/-- Witness for C9 (amended): entering `potential_takeoff` from a ground
state holding stale values 7 and 9 resets them to the current index and
zero. -/
theorem claim9_witness :
    step cfgDefault (fun _ => 2) (fun _ => 0) (fun _ => 0) 0
        ⟨Phase.ground, 7, 9, []⟩ =
      Except.ok ⟨Phase.potential_takeoff, 0, 0, []⟩ :=
  claim9_reset_on_entry cfgDefault (fun _ => 2) (fun _ => 0) (fun _ => 0)
    0 ⟨Phase.ground, 7, 9, []⟩ rfl (by norm_num [cfgDefault])

/-- C10: the `potential_takeoff` state has no elapsed-time-only exit —
leaving it requires freefall (`accel < freefall_ceiling`) or the abandon
condition (`elapsed > 0.5` and `accel > takeoff_threshold`); and a
candidate whose magnitude stays inside the closed band
`[freefall_ceiling, takeoff_threshold]` on every subsequent sample stays
in `potential_takeoff` for the remainder of the span and never produces
an event. -/
theorem claim10_no_pt_timeout :
    (∀ (cfg : Config) (a r t : ℕ → ℚ) (i : ℕ) (s s' : LoopState),
        s.state = Phase.potential_takeoff →
        step cfg a r t i s = Except.ok s' →
        s'.state ≠ Phase.potential_takeoff →
        a i < cfg.freefall_ceiling ∨
          (1 / 2 < t i - t s.jump_start_idx ∧
            cfg.takeoff_threshold < a i)) ∧
    (∀ (cfg : Config) (a r t : ℕ → ℚ) (k m jsi : ℕ) (yaw : ℚ)
        (js : List Jump),
        (∀ i, k ≤ i → i < k + m →
          cfg.freefall_ceiling ≤ a i ∧ a i ≤ cfg.takeoff_threshold) →
        ∃ yaw', stepRange cfg a r t k m
            ⟨Phase.potential_takeoff, jsi, yaw, js⟩ =
          Except.ok ⟨Phase.potential_takeoff, jsi, yaw', js⟩) := by
  constructor
  · intro cfg a r t i s s' hst hstep hne
    obtain ⟨st, jsi, yaw, js⟩ := s
    cases st with
    | ground => simp at hst
    | airborne => simp at hst
    | potential_takeoff =>
        rw [step_pt_shape] at hstep
        injection hstep with hs'
        subst hs'
        dsimp only at hne ⊢
        by_cases hc : 1 / 2 < t i - t jsi ∧ cfg.takeoff_threshold < a i
        · right
          exact hc
        · by_cases hff : a i < cfg.freefall_ceiling
          · left
            exact hff
          · rw [if_neg hc, if_neg hff] at hne
            exact absurd rfl hne
  · intro cfg a r t k m jsi yaw js h
    exact stepRange_pt_inband cfg a r t m k jsi yaw js h

/-- Witness for C10: a freefall exit instance of the characterisation,
and a three-sample in-band span that stays pending with no event. -/
theorem claim10_witness :
    ((1 : ℚ)/10 < cfgDefault.freefall_ceiling ∨
      ((1 : ℚ) / 2 < 0 - 0 ∧ cfgDefault.takeoff_threshold < 1/10)) ∧
    (∃ yaw', stepRange cfgDefault (fun _ => 1) (fun _ => 0) (fun _ => 0)
        0 3 ⟨Phase.potential_takeoff, 0, 0, []⟩ =
      Except.ok ⟨Phase.potential_takeoff, 0, yaw', []⟩) := by
  constructor
  · exact claim10_no_pt_timeout.1 cfgDefault (fun _ => 1/10) (fun _ => 0)
      (fun _ => 0) 0 ⟨Phase.potential_takeoff, 0, 0, []⟩
      ⟨Phase.airborne, 0, 0, []⟩ rfl (by norm_num [step, cfgDefault])
      (by simp)
  · exact claim10_no_pt_timeout.2 cfgDefault (fun _ => 1) (fun _ => 0)
      (fun _ => 0) 0 3 0 0 []
      (by intro i h1 h2; norm_num [cfgDefault])
